import Mathlib

/-!
Verification of the `flask_serialize` mixin (file
`src/flask_serialize/flask_serialize.py`).  The development shallowly embeds
the parts of `FlaskSerializeMixin` that the claims concern:

* the write-side value conversion `__convert_value` together with
  `__get_update_field_type` and the default `__fs_convert_types__` rules;
* the read-side serialization `fs_as_dict`;
* the list serialization `fs_json_list` with its property filter loop;
* the update pipeline `fs_update_from_dict`, `fs_request_update_form`,
  `fs_request_update_json`, `fs_request_create_form`;
* the CRUD dispatcher `fs_get_delete_put_post` (single-item branch) and the
  default `__fs_can_delete__` hook.

Python values are modelled by the inductive `PyVal`; Python exceptions by
`Except String`; the overridable hook methods by explicit data
(`Hooks`); calls into the persistence collaborator (`db.session.add`,
`commit`, `delete`) and the after-commit hook by an event trace (`Ev`).
Machine-level details that no claim depends on (the actual column
introspection of SQLAlchemy, the wall clock used by the timestamp stamper)
are abstracted: field lists and effective update/create field-name lists are
taken as inputs, exactly as the source consumes them after its derivation
step.
-/

namespace FlaskSerialize

/-- Python runtime values, restricted to the kinds that flow through the
mixin in the claims: `None`, booleans, integers, strings, byte strings and
an opaque model-instance reference (`obj`, used to model the Python code
passing `self` as an argument). -/
inductive PyVal where
  | none
  | bool (b : Bool)
  | int (n : Int)
  | str (s : String)
  | bytes (s : String)
  | obj
  deriving DecidableEq, Repr

/-- The Python types that appear as keys of `__fs_convert_types__` rules and
as results of `__get_update_field_type`. -/
inductive PyType where
  | bool
  | int
  | float
  | str
  | bytes
  | datetime
  deriving DecidableEq, Repr

/-- Python truthiness (`if v:`) for the modelled values. -/
def truthy : PyVal → Bool
  | .none => false
  | .bool b => b
  | .int n => n != 0
  | .str s => s != ""
  | .bytes s => s != ""
  | .obj => true

/-- Python `isinstance(value, t)` for the modelled values and types.  As in
Python, `bool` is a subclass of `int`, so a boolean is an instance of both
`bool` and `int`. -/
def isinst : PyVal → PyType → Bool
  | .bool _, .bool => true
  | .bool _, .int => true
  | .int _, .int => true
  | .str _, .str => true
  | .bytes _, .bytes => true
  | _, _ => false

/-- Python `==` on the modelled values (`True == 1`, `False == 0`). -/
def pyEq : PyVal → PyVal → Bool
  | .none, .none => true
  | .bool a, .bool b => a == b
  | .bool a, .int n => (if a then (1 : Int) else 0) == n
  | .int n, .bool a => n == (if a then (1 : Int) else 0)
  | .int a, .int b => a == b
  | .str a, .str b => a == b
  | .bytes a, .bytes b => a == b
  | .obj, .obj => true
  | _, _ => false

/-! ### Python dictionaries

Request data, serialization output and the previous-value record are Python
dicts.  They are modelled as association lists with unique keys, in
insertion order; `dinsert` overwrites in place or appends, exactly the
semantics of `d[k] = v` on a Python dict. -/

/-- A Python dict with string keys, in insertion order. -/
abbrev Dict := List (String × PyVal)

/-- Dict lookup: `d[k]` / `d.get(k)` (first matching key). -/
def dget : Dict → String → Option PyVal
  | [], _ => Option.none
  | (k1, v1) :: rest, k => if k1 = k then some v1 else dget rest k

/-- `d.get(k)` with Python `None` as the default for a missing key. -/
def dget0 (d : Dict) (k : String) : PyVal := (dget d k).getD PyVal.none

/-- Python membership test `k in d`. -/
def dmem (d : Dict) (k : String) : Bool := (dget d k).isSome

/-- Dict assignment `d[k] = v`: overwrite the first matching key in place,
or append a new entry. -/
def dinsert : Dict → String → PyVal → Dict
  | [], k, v => [(k, v)]
  | (k1, v1) :: rest, k, v =>
      if k1 = k then (k, v) :: rest else (k1, v1) :: dinsert rest k v

theorem dget_dinsert_self (d : Dict) (k : String) (v : PyVal) :
    dget (dinsert d k v) k = some v := by
  induction d with
  | nil => simp [dinsert, dget]
  | cons p rest ih =>
      rcases p with ⟨k1, v1⟩
      by_cases h : k1 = k
      · subst h
        simp [dinsert, dget]
      · simp only [dinsert, if_neg h, dget, ih]

theorem dget_dinsert_ne (d : Dict) (k x : String) (v : PyVal) (hx : x ≠ k) :
    dget (dinsert d k v) x = dget d x := by
  induction d with
  | nil =>
      simp only [dinsert, dget]
      rw [if_neg (fun hh => hx hh.symm)]
  | cons p rest ih =>
      rcases p with ⟨k1, v1⟩
      by_cases h : k1 = k
      · subst h
        simp only [dinsert, if_pos rfl, dget]
        rw [if_neg (fun hh => hx hh.symm), if_neg (fun hh => hx hh.symm)]
      · simp only [dinsert, if_neg h, dget]
        by_cases h2 : k1 = x
        · rw [if_pos h2, if_pos h2]
        · rw [if_neg h2, if_neg h2, ih]

/-! ### Character-list string helpers

`String.startsWith` and Python `in` are modelled over the underlying
character lists so that every definition evaluates by kernel reduction. -/

/-- `s.startswith(p)` in Python / `String.startsWith` in the source,
computed on character lists. -/
def strHasPre (s p : String) : Bool := p.data.isPrefixOf s.data

/-- Contiguous-substring search on character lists. -/
def listHasSub (p : List Char) : List Char → Bool
  | [] => p.isEmpty
  | c :: rest => p.isPrefixOf (c :: rest) || listHasSub p rest

/-- Python `p in s` for strings. -/
def strHasSub (s p : String) : Bool := listHasSub p.data s.data

/-! ### Write-side conversion: `__fs_convert_types__` and `__convert_value`

Source lines 33 to 34 and 429 to 452. -/

/-- One entry of `__fs_convert_types__`: a Python type key and a conversion
method.  The method returns `Except` because a Python callable may raise. -/
structure ConvertRule where
  type : PyType
  method : PyVal → Except String PyVal

/-- The default boolean rule method of `__fs_convert_types__`:
`lambda v: 'y' if v else 'n'` (truthiness based, never raises). -/
def boolMethod (v : PyVal) : Except String PyVal :=
  .ok (.str (if truthy v then "y" else "n"))

/-- The exception text raised by `v.encode()` when `v` has no `encode`
attribute (in particular when `v` is an actual `bytes` object). -/
def encodeAttrError : String := "AttributeError: object has no attribute encode"

/-- The default bytes rule method of `__fs_convert_types__`:
`lambda v: v.encode()`.  In Python 3 only `str` has an `encode` method, so
the call succeeds exactly on string values and raises `AttributeError` on
everything else, including actual `bytes` values. -/
def encodeMethod : PyVal → Except String PyVal
  | .str s => .ok (.bytes s)
  | _ => .error encodeAttrError

/-- The default `__fs_convert_types__` list (source lines 33 to 34). -/
def defaultConvertTypes : List ConvertRule :=
  [⟨PyType.bool, boolMethod⟩, ⟨PyType.bytes, encodeMethod⟩]

/-- A field descriptor as kept in `props.field_list`: column (or property)
name, the coarse declared type string `c_type` (`str(f.type).split('(')[0]`)
and the read-side converter assigned by the introspector (`None` when no
converter applies). -/
structure SField where
  name : String
  c_type : String
  converter : Option (PyVal → Except String PyVal)

/-- The prefix dispatch of `__get_update_field_type` (source lines 414 to
425) mapping a declared column type string to a Python type. -/
def classifyCType (c : String) : Option PyType :=
  if strHasPre c "VARCHAR" || strHasPre c "CHAR" || strHasPre c "TEXT" then some .str
  else if strHasPre c "INTEGER" then some .int
  else if strHasPre c "FLOAT" || strHasPre c "REAL" || strHasPre c "NUMERIC" then some .float
  else if strHasPre c "DATE" || strHasPre c "TIME" then some .datetime
  else if strHasPre c "BOOLEAN" then some .bool
  else if strHasSub c "LOB" then some .bytes
  else Option.none

/-- `__get_update_field_type` (source lines 403 to 427): scan
`props.field_list` for a field with the given name whose declared type
classifies; the loop keeps scanning when the name matches but no type
prefix does, exactly as in the source. -/
def getUpdateFieldType : List SField → String → Option PyType
  | [], _ => Option.none
  | f :: rest, field =>
      if f.name = field then
        match classifyCType f.c_type with
        | some t => some t
        | Option.none => getUpdateFieldType rest field
      else getUpdateFieldType rest field

/-- `__convert_value` (source lines 429 to 452): first the first rule of
`__fs_convert_types__` whose type matches the runtime type of the value
(`isinstance`); only when none matches, the first rule whose type equals
the destination column type derived by `__get_update_field_type`; otherwise
the value is returned unchanged. -/
def convertValue (rules : List ConvertRule) (fl : List SField)
    (name : String) (value : PyVal) : Except String PyVal :=
  match rules.find? (fun t => isinst value t.type) with
  | some t => t.method value
  | Option.none =>
      match getUpdateFieldType fl name with
      | some ity =>
          match rules.find? (fun t => t.type == ity) with
          | some t => t.method value
          | Option.none => .ok value
      | Option.none => .ok value

theorem find?_append_first {α : Type} (p : α → Bool) (pre : List α) (t : α)
    (post : List α) (hpre : ∀ r ∈ pre, p r = false) (ht : p t = true) :
    (pre ++ t :: post).find? p = some t := by
  induction pre with
  | nil => simp [List.find?, ht]
  | cons a rest ih =>
      have ha : p a = false := hpre a (by simp)
      simp only [List.cons_append, List.find?, ha]
      exact ih (fun r hr => hpre r (by simp [hr]))

example : convertValue defaultConvertTypes [] "x" (.bool true) = .ok (.str "y") := rfl

example : convertValue defaultConvertTypes [⟨"name", "VARCHAR", Option.none⟩] "name"
    (.str "Bob") = .ok (.str "Bob") := rfl

example : convertValue defaultConvertTypes [⟨"data", "BLOB", Option.none⟩] "data"
    (.str "hi") = .ok (.bytes "hi") := rfl

example : convertValue defaultConvertTypes [] "data" (.bytes "hi") =
    .error encodeAttrError := rfl

/-! ### Read-side serialization: `fs_as_dict`

Source lines 350 to 379.  The attribute read `getattr(self, c.name, '')` is
modelled as a getter function returning `Except String PyVal`: `.error e`
models a raising property getter (caught by the source and replaced by
`str(e)`).  The resulting mapping is a plain `Dict`: every exception inside
the loop is caught by the source, so the embedded function is total and no
exception reaches the caller. -/

/-- The error string built at source line 378:
`'Error:"-". Failed to convert [-] type:-'.format(e, c.name, c.c_type)`. -/
def errString (e name ctype : String) : String :=
  "Error:\"" ++ (e ++ ("\". Failed to convert [" ++ (name ++ ("] type:" ++ ctype))))

/-- One iteration of the `fs_as_dict` loop (source lines 366 to 378) acting
on the dict built so far. -/
def serializeField (getter : String → Except String PyVal) (c : SField)
    (d : Dict) : Dict :=
  match getter c.name with
  | .ok v =>
      let d1 := dinsert d c.name v
      if v = PyVal.none then dinsert d1 c.name (.str "")
      else
        match c.converter with
        | some conv =>
            match conv v with
            | .ok w => dinsert d1 c.name w
            | .error e => dinsert d1 c.name (.str (errString e c.name c.c_type))
        | Option.none => d1
  | .error e =>
      match c.converter with
      | some conv =>
          match conv (PyVal.str e) with
          | .ok w => dinsert d c.name w
          | .error e2 => dinsert d c.name (.str (errString e2 c.name c.c_type))
      | Option.none => d

/-- The final dict entry contributed by one field (`Option.none` when the
loop body leaves no entry for the field, which happens exactly when the
attribute read raises and the field has no converter). -/
def fieldEntry (getter : String → Except String PyVal) (c : SField) : Option PyVal :=
  match getter c.name with
  | .ok v =>
      if v = PyVal.none then some (.str "")
      else
        match c.converter with
        | some conv =>
            match conv v with
            | .ok w => some w
            | .error e => some (.str (errString e c.name c.c_type))
        | Option.none => some v
  | .error e =>
      match c.converter with
      | some conv =>
          match conv (PyVal.str e) with
          | .ok w => some w
          | .error e2 => some (.str (errString e2 c.name c.c_type))
      | Option.none => Option.none

/-- The `fs_as_dict` loop over the field list, threading the dict. -/
def fsAsDictAux (getter : String → Except String PyVal) :
    List SField → Dict → Dict
  | [], d => d
  | c :: cs, d => fsAsDictAux getter cs (serializeField getter c d)

/-- `fs_as_dict` (source lines 350 to 379): serialize the fields returned
by `__get_fields()` into a plain dict, starting from `d = {}`. -/
def fsAsDict (getter : String → Except String PyVal) (fields : List SField) : Dict :=
  fsAsDictAux getter fields []

theorem dget_dinsert_dinsert (d : Dict) (k : String) (v w : PyVal) :
    dget (dinsert (dinsert d k v) k w) k = some w :=
  dget_dinsert_self _ _ _

theorem dget_serializeField_self (getter : String → Except String PyVal)
    (c : SField) (d : Dict) (w : PyVal) (he : fieldEntry getter c = some w) :
    dget (serializeField getter c d) c.name = some w := by
  unfold fieldEntry at he
  unfold serializeField
  cases hg : getter c.name with
  | ok v =>
      rw [hg] at he
      dsimp only at he ⊢
      by_cases hv : v = PyVal.none
      · subst hv
        rw [if_pos rfl] at he ⊢
        simp only [Option.some.injEq] at he
        rw [← he]
        exact dget_dinsert_self _ _ _
      · rw [if_neg hv] at he ⊢
        cases hc : c.converter with
        | some conv =>
            simp only [hc] at he ⊢
            cases hw : conv v with
            | ok w2 =>
                simp only [hw, Option.some.injEq] at he ⊢
                rw [← he]
                exact dget_dinsert_self _ _ _
            | error e =>
                simp only [hw, Option.some.injEq] at he ⊢
                rw [← he]
                exact dget_dinsert_self _ _ _
        | none =>
            simp only [hc, Option.some.injEq] at he ⊢
            rw [← he]
            exact dget_dinsert_self _ _ _
  | error e =>
      rw [hg] at he
      dsimp only at he ⊢
      cases hc : c.converter with
      | some conv =>
          simp only [hc] at he ⊢
          cases hw : conv (PyVal.str e) with
          | ok w2 =>
              simp only [hw, Option.some.injEq] at he ⊢
              rw [← he]
              exact dget_dinsert_self _ _ _
          | error e2 =>
              simp only [hw, Option.some.injEq] at he ⊢
              rw [← he]
              exact dget_dinsert_self _ _ _
      | none =>
          simp only [hc] at he
          cases he

theorem dget_serializeField_ne (getter : String → Except String PyVal)
    (c : SField) (d : Dict) (x : String) (hx : x ≠ c.name) :
    dget (serializeField getter c d) x = dget d x := by
  unfold serializeField
  cases hg : getter c.name with
  | ok v =>
      dsimp only
      by_cases hv : v = PyVal.none
      · subst hv
        rw [if_pos rfl]
        rw [dget_dinsert_ne _ _ _ _ hx, dget_dinsert_ne _ _ _ _ hx]
      · rw [if_neg hv]
        cases hc : c.converter with
        | some conv =>
            simp only [hc]
            cases hw : conv v with
            | ok w2 =>
                simp only [hw]
                rw [dget_dinsert_ne _ _ _ _ hx, dget_dinsert_ne _ _ _ _ hx]
            | error e =>
                simp only [hw]
                rw [dget_dinsert_ne _ _ _ _ hx, dget_dinsert_ne _ _ _ _ hx]
        | none =>
            simp only [hc]
            rw [dget_dinsert_ne _ _ _ _ hx]
  | error e =>
      dsimp only
      cases hc : c.converter with
      | some conv =>
          simp only [hc]
          cases hw : conv (PyVal.str e) with
          | ok w2 =>
              simp only [hw]
              rw [dget_dinsert_ne _ _ _ _ hx]
          | error e2 =>
              simp only [hw]
              rw [dget_dinsert_ne _ _ _ _ hx]
      | none => rfl

theorem dget_fsAsDictAux_notMem (getter : String → Except String PyVal)
    (fields : List SField) (d : Dict) (x : String)
    (hx : ∀ f ∈ fields, f.name ≠ x) :
    dget (fsAsDictAux getter fields d) x = dget d x := by
  induction fields generalizing d with
  | nil => rfl
  | cons c cs ih =>
      have hc : c.name ≠ x := hx c (by simp)
      rw [fsAsDictAux, ih _ (fun f hf => hx f (by simp [hf])),
        dget_serializeField_ne _ _ _ _ (fun h => hc h.symm)]

theorem dget_fsAsDictAux_mem (getter : String → Except String PyVal)
    (fields : List SField) (d : Dict) (c : SField) (w : PyVal)
    (hnd : (fields.map (fun f => f.name)).Nodup) (hc : c ∈ fields)
    (he : fieldEntry getter c = some w) :
    dget (fsAsDictAux getter fields d) c.name = some w := by
  induction fields generalizing d with
  | nil => cases hc
  | cons a cs ih =>
      rw [List.map_cons, List.nodup_cons] at hnd
      rcases List.mem_cons.mp hc with h | h
      · subst h
        rw [fsAsDictAux,
          dget_fsAsDictAux_notMem getter cs _ c.name
            (fun f hf heq => hnd.1 (List.mem_map.mpr ⟨f, hf, heq⟩))]
        exact dget_serializeField_self getter c d w he
      · rw [fsAsDictAux]
        exact ih (serializeField getter a d) hnd.2 h

/-! ### List serialization: `fs_json_list`

Source lines 139 to 168.  A query-result element is modelled by its
`__fs_can_access__()` answer and its serialized dict
(`__as_exclude_json_dict()`), since `fs_json_list` consumes elements only
through those two (overridable) methods. -/

/-- One element of a query result, as consumed by `fs_json_list`. -/
structure QItem where
  canAccess : Bool
  jdict : Dict

/-- Lexicographic comparison of character lists (Python string order). -/
def listLe : List Char → List Char → Bool
  | [], _ => true
  | _ :: _, [] => false
  | a :: as, b :: bs =>
      if a.toNat < b.toNat then true
      else if b.toNat < a.toNat then false
      else listLe as bs

/-- Python `<=` on sort keys, for same-typed values (a comparison between
values of different types raises in Python; the embedding returns `false`,
which no claim depends on since the sort stage is treated whole). -/
def pyLe : PyVal → PyVal → Bool
  | .none, .none => true
  | .bool a, .bool b => !a || b
  | .int a, .int b => decide (a ≤ b)
  | .str a, .str b => listLe a.data b.data
  | .bytes a, .bytes b => listLe a.data b.data
  | _, _ => false

/-- The two `sorted(...)` steps of `fs_json_list` (source lines 152 to
157): a stable ascending sort by `__fs_order_by_field__` when set, then a
stable descending sort by `__fs_order_by_field_desc__` when set, each only
when the list is non-empty. -/
def sortStage (orderBy orderByDesc : Option String) (items : List Dict) : List Dict :=
  let items1 :=
    if 0 < items.length then
      match orderBy with
      | some k => items.mergeSort (fun a b => pyLe (dget0 a k) (dget0 b k))
      | Option.none => items
    else items
  if 0 < items1.length then
    match orderByDesc with
    | some k => items1.mergeSort (fun a b => pyLe (dget0 b k) (dget0 a k))
    | Option.none => items1
  else items1

/-- The inner loop of the property filter (source lines 162 to 165):
`for k, v in prop_filters.items(): if item.get(k) == v: append item; break`.
Returns `true` exactly when the item is appended. -/
def innerMatch (item : Dict) : List (String × PyVal) → Bool
  | [] => false
  | (k, v) :: rest => if pyEq (dget0 item k) v then true else innerMatch item rest

/-- The outer loop of the property filter (source lines 160 to 166). -/
def propFilterLoop (filters : List (String × PyVal)) : List Dict → List Dict
  | [] => []
  | item :: rest =>
      if innerMatch item filters then item :: propFilterLoop filters rest
      else propFilterLoop filters rest

/-- `fs_json_list` (source lines 139 to 168): keep the accessible items,
serialize each, sort per configuration, then apply the property filter when
`prop_filters` is non-empty (`if prop_filters:`). -/
def fsJsonList (orderBy orderByDesc : Option String) (qr : List QItem)
    (propFilters : List (String × PyVal)) : List Dict :=
  let items := (qr.filter (fun i => i.canAccess)).map (fun i => i.jdict)
  let items := sortStage orderBy orderByDesc items
  if propFilters.isEmpty then items else propFilterLoop propFilters items

/-- Modelled from the spec words of claim C7 only, for comparison with the
source embedding: keep exactly the items for which EVERY listed filter key
serializes to the listed filter value. -/
def specEveryFilter (filters : List (String × PyVal)) (items : List Dict) : List Dict :=
  items.filter (fun item => filters.all (fun kv => pyEq (dget0 item kv.1) kv.2))

theorem innerMatch_eq_any (item : Dict) (fs : List (String × PyVal)) :
    innerMatch item fs = fs.any (fun kv => pyEq (dget0 item kv.1) kv.2) := by
  induction fs with
  | nil => rfl
  | cons kv rest ih =>
      rcases kv with ⟨k, v⟩
      by_cases h : pyEq (dget0 item k) v = true
      · simp [innerMatch, h]
      · simp only [innerMatch, List.any_cons]
        rw [if_neg h, ih]
        simp [Bool.eq_false_iff.mpr h]

theorem propFilterLoop_eq_filter (fs : List (String × PyVal)) (items : List Dict) :
    propFilterLoop fs items = items.filter (fun item => innerMatch item fs) := by
  induction items with
  | nil => rfl
  | cons item rest ih =>
      by_cases h : innerMatch item fs = true
      · simp [propFilterLoop, h, List.filter_cons, ih]
      · simp only [propFilterLoop, List.filter_cons]
        rw [if_neg h, ih]
        simp [Bool.eq_false_iff.mpr h]

/-! ### Update pipeline: `fs_update_from_dict`

Source lines 553 to 571.  A model instance is a total assignment of Python
values to attribute names; `setattr` is pointwise function update.  The
effective `__fs_update_fields__` / `__fs_create_fields__` lists (after the
derivation at source lines 562 to 565 and 464 to 467, which either takes
the configured list or every non-primary-key column name) are carried as
lists of names in the configuration, exactly the shape in which the loops
consume them.  The previous-value record `__fs_previous_field_value__` is
threaded as a dict. -/

/-- A model instance: its attribute values by name. -/
abbrev Inst := String → PyVal

/-- `setattr(inst, f, v)`. -/
def setI (inst : Inst) (f : String) (v : PyVal) : Inst :=
  fun n => if n = f then v else inst n

/-- Per-model configuration consumed by the update/create pipelines. -/
structure FsConfig where
  updateFields : List String
  createFields : List String
  fieldList : List SField
  convertTypes : List ConvertRule
  beforeUpdate : Dict → Dict

/-- The loop of `fs_update_from_dict` (source lines 566 to 571): for every
updatable field, record the current attribute value in the previous-value
record, then, when the field is present in the incoming dict, write the
converted value; a raising conversion propagates. -/
def updLoop (cfg : FsConfig) : List String → Inst → Dict → Dict → Except String (Inst × Dict)
  | [], inst, prev, _ => .ok (inst, prev)
  | f :: rest, inst, prev, d =>
      let prev1 := dinsert prev f (inst f)
      if dmem d f then
        match convertValue cfg.convertTypes cfg.fieldList f (dget0 d f) with
        | .ok v => updLoop cfg rest (setI inst f v) prev1 d
        | .error e => .error e
      else updLoop cfg rest inst prev1 d

/-- `fs_update_from_dict` (source lines 553 to 571): apply the
`__fs_before_update__` hook to the incoming dict, then run the field loop. -/
def fsUpdateFromDict (cfg : FsConfig) (inst : Inst) (prev : Dict) (data : Dict) :
    Except String (Inst × Dict) :=
  updLoop cfg cfg.updateFields inst prev (cfg.beforeUpdate data)

theorem updLoop_notMem (cfg : FsConfig) (fs : List String) (f : String)
    (inst : Inst) (prev d : Dict) (inst2 : Inst) (prev2 : Dict)
    (hf : f ∉ fs) (hrun : updLoop cfg fs inst prev d = .ok (inst2, prev2)) :
    inst2 f = inst f ∧ dget prev2 f = dget prev f := by
  induction fs generalizing inst prev with
  | nil =>
      simp only [updLoop, Except.ok.injEq, Prod.mk.injEq] at hrun
      rw [← hrun.1, ← hrun.2]
      exact ⟨rfl, rfl⟩
  | cons g rest ih =>
      rw [List.mem_cons] at hf
      push_neg at hf
      obtain ⟨hfg, hfr⟩ := hf
      rw [updLoop] at hrun
      by_cases hm : dmem d g = true
      · rw [if_pos hm] at hrun
        cases hcv : convertValue cfg.convertTypes cfg.fieldList g (dget0 d g) with
        | ok v =>
            rw [hcv] at hrun
            dsimp only at hrun
            obtain ⟨h1, h2⟩ := ih (setI inst g v) (dinsert prev g (inst g)) hfr hrun
            refine ⟨?_, ?_⟩
            · rw [h1, setI, if_neg hfg]
            · rw [h2, dget_dinsert_ne _ _ _ _ hfg]
        | error e =>
            rw [hcv] at hrun
            cases hrun
      · rw [if_neg hm] at hrun
        obtain ⟨h1, h2⟩ := ih inst (dinsert prev g (inst g)) hfr hrun
        exact ⟨h1, by rw [h2, dget_dinsert_ne _ _ _ _ hfg]⟩

theorem updLoop_prev (cfg : FsConfig) (fs : List String) (f : String)
    (inst : Inst) (prev d : Dict) (inst2 : Inst) (prev2 : Dict)
    (hnd : fs.Nodup) (hf : f ∈ fs)
    (hrun : updLoop cfg fs inst prev d = .ok (inst2, prev2)) :
    dget prev2 f = some (inst f) := by
  induction fs generalizing inst prev with
  | nil => cases hf
  | cons g rest ih =>
      rw [List.nodup_cons] at hnd
      rw [updLoop] at hrun
      rcases List.mem_cons.mp hf with h | h
      · subst h
        by_cases hm : dmem d f = true
        · rw [if_pos hm] at hrun
          cases hcv : convertValue cfg.convertTypes cfg.fieldList f (dget0 d f) with
          | ok v =>
              rw [hcv] at hrun
              dsimp only at hrun
              have := (updLoop_notMem cfg rest f _ _ d inst2 prev2 hnd.1 hrun).2
              rw [this, dget_dinsert_self]
          | error e =>
              rw [hcv] at hrun
              cases hrun
        · rw [if_neg hm] at hrun
          have := (updLoop_notMem cfg rest f _ _ d inst2 prev2 hnd.1 hrun).2
          rw [this, dget_dinsert_self]
      · have hgf : f ≠ g := fun hh => hnd.1 (hh ▸ h)
        by_cases hm : dmem d g = true
        · rw [if_pos hm] at hrun
          cases hcv : convertValue cfg.convertTypes cfg.fieldList g (dget0 d g) with
          | ok v =>
              rw [hcv] at hrun
              dsimp only at hrun
              have := ih (setI inst g v) (dinsert prev g (inst g)) hnd.2 h hrun
              rw [this, setI, if_neg hgf]
          | error e =>
              rw [hcv] at hrun
              cases hrun
        · rw [if_neg hm] at hrun
          exact ih inst (dinsert prev g (inst g)) hnd.2 h hrun

theorem updLoop_write (cfg : FsConfig) (fs : List String) (f : String)
    (inst : Inst) (prev d : Dict) (inst2 : Inst) (prev2 : Dict) (w : PyVal)
    (hnd : fs.Nodup) (hf : f ∈ fs) (hm : dmem d f = true)
    (hcv : convertValue cfg.convertTypes cfg.fieldList f (dget0 d f) = .ok w)
    (hrun : updLoop cfg fs inst prev d = .ok (inst2, prev2)) :
    inst2 f = w := by
  induction fs generalizing inst prev with
  | nil => cases hf
  | cons g rest ih =>
      rw [List.nodup_cons] at hnd
      rw [updLoop] at hrun
      rcases List.mem_cons.mp hf with h | h
      · subst h
        rw [if_pos hm, hcv] at hrun
        dsimp only at hrun
        have := (updLoop_notMem cfg rest f _ _ d inst2 prev2 hnd.1 hrun).1
        rw [this, setI, if_pos rfl]
      · have hgf : f ≠ g := fun hh => hnd.1 (hh ▸ h)
        by_cases hmg : dmem d g = true
        · rw [if_pos hmg] at hrun
          cases hcg : convertValue cfg.convertTypes cfg.fieldList g (dget0 d g) with
          | ok v =>
              rw [hcg] at hrun
              dsimp only at hrun
              exact ih (setI inst g v) (dinsert prev g (inst g)) hnd.2 h hrun
          | error e =>
              rw [hcg] at hrun
              cases hrun
        · rw [if_neg hmg] at hrun
          exact ih inst (dinsert prev g (inst g)) hnd.2 h hrun

theorem updLoop_frame (cfg : FsConfig) (fs : List String) (g : String)
    (inst : Inst) (prev d : Dict) (inst2 : Inst) (prev2 : Dict)
    (hg : dmem d g = false)
    (hrun : updLoop cfg fs inst prev d = .ok (inst2, prev2)) :
    inst2 g = inst g := by
  induction fs generalizing inst prev with
  | nil =>
      simp only [updLoop, Except.ok.injEq, Prod.mk.injEq] at hrun
      rw [← hrun.1]
  | cons f rest ih =>
      rw [updLoop] at hrun
      by_cases hm : dmem d f = true
      · have hfg : g ≠ f := fun hh => by rw [hh] at hg; rw [hg] at hm; cases hm
        rw [if_pos hm] at hrun
        cases hcv : convertValue cfg.convertTypes cfg.fieldList f (dget0 d f) with
        | ok v =>
            rw [hcv] at hrun
            dsimp only at hrun
            rw [ih (setI inst f v) (dinsert prev f (inst f)) hrun, setI, if_neg hfg]
        | error e =>
            rw [hcv] at hrun
            cases hrun
      · rw [if_neg hm] at hrun
        exact ih inst (dinsert prev f (inst f)) hrun

/-! ### Request pipelines and CRUD dispatch

Source lines 454 to 542 and 626 to 679.  The overridable hook methods are
data (`Hooks`); the calls into the persistence collaborator and the
after-commit hook are recorded in an event trace, in call order.  The flag
given to `__fs_after_commit__` is a Python value: `True` on the create
path, the default `False` on the JSON update path, and the instance itself
(`PyVal.obj`) on the form update path, which calls
`self.__fs_after_commit__(self)` at source line 513. -/

/-- HTTP methods handled by `fs_get_delete_put_post`. -/
inductive Method where
  | GET
  | POST
  | PUT
  | DELETE
  deriving DecidableEq, Repr

/-- The parts of the Flask request object the pipelines read.  `jsonData`
is `some` exactly when `request.get_json(force=True)` succeeds. -/
structure Request where
  method : Method
  contentType : String
  form : Dict
  jsonData : Option Dict
  values : Dict

/-- Observable calls made by the pipelines: the timestamp stamping, the
persistence collaborator operations, and the after-commit hook with the
Python value passed as its `create` argument. -/
inductive Ev where
  | updateTimestamp
  | sessionAdd
  | sessionCommit
  | sessionDelete
  | afterCommit (create : PyVal)
  deriving DecidableEq, Repr

/-- An exception carrying an HTTP status, as raised by `abort(code)`. -/
structure AbortErr where
  code : Nat
  text : String
  deriving DecidableEq, Repr

/-- The text of the `403 Forbidden` exception raised by `abort(403)`. -/
def forbidden403Text : String :=
  "403 Forbidden: You do not have the permission to access the requested resource."

/-- The default `__fs_can_delete__` hook (source lines 591 to 602): abort
with 403 when `__fs_can_update__()` is false, else return `True`. -/
def defaultCanDelete (canUpdate : Bool) : Except AbortErr Bool :=
  if canUpdate then .ok true else .error ⟨403, forbidden403Text⟩

/-- The message of the exception raised at source lines 510 and 538 when
the `db` property is unset. -/
def dbNotSetMsg : String := "FlaskSerializeMixin property \"db\" is not set"

/-- The `AttributeError` text produced on the create path when `db` is
`None` (source line 488 has no explicit check). -/
def noneTypeSessionError : String :=
  "AttributeError: NoneType object has no attribute session"

/-- The overridable hook methods of a model type, as data:
`__fs_can_access__`, `__fs_can_update__`, `__fs_can_delete__`,
`__fs_verify__` (argument is its `create` flag), and whether the `db`
property is set. -/
structure Hooks where
  canAccess : Bool
  canUpdate : Bool
  canDelete : Except AbortErr Bool
  verify : Bool → Except String Unit
  dbSet : Bool

/-- `fs_request_update_json` (source lines 516 to 542): check
`__fs_can_update__` first and return `False` if it fails; otherwise take
the JSON body, or `request.values` when the body does not parse; update
from the dict; verify; stamp timestamps; add, commit, and fire
`__fs_after_commit__()` with its default `create=False`. -/
def fsRequestUpdateJson (h : Hooks) (cfg : FsConfig) (inst : Inst) (prev : Dict)
    (req : Request) : Except String (Bool × Inst × Dict) × List Ev :=
  if h.canUpdate then
    let jsonData :=
      match req.jsonData with
      | some j => j
      | Option.none => req.values
    match fsUpdateFromDict cfg inst prev jsonData with
    | .error e => (.error e, [])
    | .ok (inst1, prev1) =>
        match h.verify false with
        | .error e => (.error e, [])
        | .ok _ =>
            if h.dbSet then
              (.ok (true, inst1, prev1),
                [.updateTimestamp, .sessionAdd, .sessionCommit, .afterCommit (.bool false)])
            else (.error dbNotSetMsg, [.updateTimestamp])
  else (.ok (false, inst, prev), [])

/-- `fs_request_update_form` (source lines 493 to 514): delegate to the
JSON path when the content type is JSON or the method is PUT; otherwise
update from the form data FIRST, only then check `__fs_can_update__` and
return `False` if it fails; then verify, stamp, add, commit, and call
`self.__fs_after_commit__(self)` — passing the instance itself as the
`create` argument. -/
def fsRequestUpdateForm (h : Hooks) (cfg : FsConfig) (inst : Inst) (prev : Dict)
    (req : Request) : Except String (Bool × Inst × Dict) × List Ev :=
  if req.contentType = "application/json" ∨ req.method = Method.PUT then
    fsRequestUpdateJson h cfg inst prev req
  else
    match fsUpdateFromDict cfg inst prev req.form with
    | .error e => (.error e, [])
    | .ok (inst1, prev1) =>
        if h.canUpdate then
          match h.verify false with
          | .error e => (.error e, [])
          | .ok _ =>
              if h.dbSet then
                (.ok (true, inst1, prev1),
                  [.updateTimestamp, .sessionAdd, .sessionCommit, .afterCommit PyVal.obj])
              else (.error dbNotSetMsg, [.updateTimestamp])
        else (.ok (false, inst1, prev1), [])

/-- The field-assignment loop of `fs_request_create_form` (source lines
472 to 484): for every create field present in the data, write the
converted value.  A raising conversion stops the loop; the partially
updated instance and the exception are returned, because the surrounding
bare `except` continues from that state. -/
def createAssignLoop (cfg : FsConfig) : List String → Inst → Dict → Inst × Option String
  | [], inst, _ => (inst, Option.none)
  | f :: rest, inst, d =>
      if dmem d f then
        match convertValue cfg.convertTypes cfg.fieldList f (dget0 d f) with
        | .ok v => createAssignLoop cfg rest (setI inst f v) d
        | .error e => (inst, some e)
      else createAssignLoop cfg rest inst d

/-- `fs_request_create_form` (source lines 454 to 491): assign fields from
the JSON body when it parses and is non-empty (falling back to the form
loop when the JSON loop raises, from the partially updated instance, per
the bare `except`); otherwise from the form; then verify with
`create=True`, stamp, add, commit, and fire `__fs_after_commit__` with
`create=True`. -/
def fsRequestCreateForm (h : Hooks) (cfg : FsConfig) (newInst : Inst)
    (req : Request) : Except String Inst × List Ev :=
  let step1 : Inst × Option String :=
    match req.jsonData with
    | some j =>
        if 0 < j.length then
          match createAssignLoop cfg cfg.createFields newInst j with
          | (i, Option.none) => (i, Option.none)
          | (i, some _) => createAssignLoop cfg cfg.createFields i req.form
        else (newInst, Option.none)
    | Option.none => createAssignLoop cfg cfg.createFields newInst req.form
  match step1 with
  | (_, some e) => (.error e, [])
  | (inst1, Option.none) =>
      match h.verify true with
      | .error e => (.error e, [])
      | .ok _ =>
          if h.dbSet then
            (.ok inst1,
              [.updateTimestamp, .sessionAdd, .sessionCommit, .afterCommit (.bool true)])
          else (.error noneTypeSessionError, [.updateTimestamp])

/-- The response of the single-item branch of `fs_get_delete_put_post`. -/
inductive DispatchResult where
  | itemJson
  | updatedMsg
  | deletedMsg
  | errorBody (text : String) (code : Nat)
  deriving DecidableEq, Repr

/-- `__fs_http_error_code`, the status used by the catch-all handler at
source line 679. -/
def fsHttpErrorCode : Nat := 400

/-- The single-item branch of `fs_get_delete_put_post` (source lines 655
to 679), for an item that was found and passed `__fs_can_access__`.  GET
returns the item; POST and PUT call `fs_request_update_form`, IGNORE its
boolean result and answer with the `Updated` envelope; DELETE calls
`__fs_can_delete__` (discarding a returned boolean), then has the
collaborator delete and commit and answers `Deleted`.  Any exception
raised inside the branch — including the `403 Forbidden` abort of the
default `__fs_can_delete__` — is caught by the blanket handler and turned
into a text body with `__fs_http_error_code` (400). -/
def fsGetDeletePutPost (h : Hooks) (cfg : FsConfig) (inst : Inst) (prev : Dict)
    (req : Request) : DispatchResult × List Ev :=
  match req.method with
  | Method.GET => (.itemJson, [])
  | Method.POST | Method.PUT =>
      let r := fsRequestUpdateForm h cfg inst prev req
      match r.1 with
      | .ok _ => (.updatedMsg, r.2)
      | .error e => (.errorBody e fsHttpErrorCode, r.2)
  | Method.DELETE =>
      match h.canDelete with
      | .error a => (.errorBody a.text fsHttpErrorCode, [])
      | .ok _ => (.deletedMsg, [.sessionDelete, .sessionCommit])

/-! ### Concrete fixtures used by the claim theorems and witnesses -/

/-- Whether an event is an invocation of the after-commit hook. -/
def isAfterCommit : Ev → Bool
  | .afterCommit _ => true
  | _ => false

/-- A one-column model configuration: a VARCHAR column `name`, default
conversion rules, identity before-update hook. -/
def cfgDemo : FsConfig :=
  { updateFields := ["name"]
    createFields := ["name"]
    fieldList := [⟨"name", "VARCHAR", Option.none⟩]
    convertTypes := defaultConvertTypes
    beforeUpdate := fun d => d }

/-- A two-column model configuration (`name` VARCHAR, `age` INTEGER). -/
def cfgTwo : FsConfig :=
  { updateFields := ["name", "age"]
    createFields := ["name", "age"]
    fieldList := [⟨"name", "VARCHAR", Option.none⟩, ⟨"age", "INTEGER", Option.none⟩]
    convertTypes := defaultConvertTypes
    beforeUpdate := fun d => d }

/-- An instance whose `name` attribute is the string Alice. -/
def instDemo : Inst := fun n => if n = "name" then .str "Alice" else .none

/-- An instance with `name` Alice and `age` 30. -/
def instTwo : Inst :=
  fun n => if n = "name" then .str "Alice" else if n = "age" then .int 30 else .none

/-- Hooks that allow everything (the source defaults with `db` set). -/
def hooksAllow : Hooks :=
  { canAccess := true
    canUpdate := true
    canDelete := defaultCanDelete true
    verify := fun _ => .ok ()
    dbSet := true }

/-- Hooks whose `__fs_can_update__` returns false (so the default
`__fs_can_delete__` aborts with 403), with `db` set. -/
def hooksDenyUpdate : Hooks :=
  { canAccess := true
    canUpdate := false
    canDelete := defaultCanDelete false
    verify := fun _ => .ok ()
    dbSet := true }

/-- A form-encoded POST update request setting `name` to Bob. -/
def reqFormUpd : Request :=
  { method := Method.POST
    contentType := "application/x-www-form-urlencoded"
    form := [("name", .str "Bob")]
    jsonData := Option.none
    values := [] }

/-- A JSON PUT update request setting `name` to Bob. -/
def reqPutUpd : Request :=
  { method := Method.PUT
    contentType := "application/json"
    form := []
    jsonData := some [("name", .str "Bob")]
    values := [] }

/-- A form-encoded POST create request setting `name` to Carol. -/
def reqCreate : Request :=
  { method := Method.POST
    contentType := "application/x-www-form-urlencoded"
    form := [("name", .str "Carol")]
    jsonData := Option.none
    values := [] }

/-- A DELETE request. -/
def reqDelete : Request :=
  { method := Method.DELETE
    contentType := ""
    form := []
    jsonData := Option.none
    values := [] }

/-! ### Claim theorems -/

/-- Claim C1.  The claim states that when the can-update gate
(`__fs_can_update__`) returns false, the update is not persisted AND the
failure is surfaced to the caller of `fs_get_delete_put_post` rather than
silently reporting success.  The code keeps the first half (no commit
event is emitted) but violates the second: on both the form-encoded path
and the PUT/JSON path the dispatcher ignores the `False` returned by
`fs_request_update_form` (source line 667) and answers with the `Updated`
success envelope.  This theorem evaluates the dispatcher at the failing
input on both paths. -/
theorem C1_gate_failure_not_surfaced :
    fsGetDeletePutPost hooksDenyUpdate cfgDemo instDemo [] reqFormUpd
      = (DispatchResult.updatedMsg, [])
    ∧ fsGetDeletePutPost hooksDenyUpdate cfgDemo instDemo [] reqPutUpd
      = (DispatchResult.updatedMsg, [])
    ∧ Ev.sessionCommit ∉ (fsGetDeletePutPost hooksDenyUpdate cfgDemo instDemo [] reqFormUpd).2
    ∧ Ev.sessionCommit ∉ (fsGetDeletePutPost hooksDenyUpdate cfgDemo instDemo [] reqPutUpd).2 := by
  have h1 : fsGetDeletePutPost hooksDenyUpdate cfgDemo instDemo [] reqFormUpd
      = (DispatchResult.updatedMsg, []) := rfl
  have h2 : fsGetDeletePutPost hooksDenyUpdate cfgDemo instDemo [] reqPutUpd
      = (DispatchResult.updatedMsg, []) := rfl
  refine ⟨h1, h2, ?_, ?_⟩
  · rw [h1]
    simp
  · rw [h2]
    simp

/-- Claim C2.  The claim states that a successful create fires the
after-commit hook exactly once with the creation flag `True`, and a
successful update fires it exactly once with the flag false or absent.
The create path and the JSON update path conform, but the form update path
executes `self.__fs_after_commit__(self)` (source line 513), passing the
instance itself — a truthy value that is neither `False` nor absent — as
the `create` argument.  This theorem evaluates all three paths. -/
theorem C2_after_commit_flag :
    fsGetDeletePutPost hooksAllow cfgDemo instDemo [] reqFormUpd
      = (DispatchResult.updatedMsg,
          [Ev.updateTimestamp, Ev.sessionAdd, Ev.sessionCommit, Ev.afterCommit PyVal.obj])
    ∧ (fsRequestCreateForm hooksAllow cfgDemo (fun _ => PyVal.none) reqCreate).2.filter isAfterCommit
      = [Ev.afterCommit (PyVal.bool true)]
    ∧ (fsRequestUpdateJson hooksAllow cfgDemo instDemo [] reqPutUpd).2.filter isAfterCommit
      = [Ev.afterCommit (PyVal.bool false)]
    ∧ truthy PyVal.obj = true
    ∧ PyVal.obj ≠ PyVal.bool false :=
  ⟨rfl, rfl, rfl, rfl, by decide⟩

/-- Claim C3 (confirmed).  `__convert_value` first applies the first
registered rule of `__fs_convert_types__` whose type matches the runtime
type of the incoming value; only when no rule matches the runtime type
does it apply the first rule whose type equals the destination column
type derived by `__get_update_field_type`; when neither matches, the value
is returned unchanged. -/
theorem C3_convert_value_order (fl : List SField) (name : String) (v : PyVal) :
    (∀ (pre post : List ConvertRule) (t : ConvertRule),
        (∀ r ∈ pre, isinst v r.type = false) → isinst v t.type = true →
        convertValue (pre ++ t :: post) fl name v = t.method v)
    ∧ (∀ (pre post : List ConvertRule) (t : ConvertRule) (ity : PyType),
        (∀ r ∈ pre ++ t :: post, isinst v r.type = false) →
        getUpdateFieldType fl name = some ity →
        (∀ r ∈ pre, r.type ≠ ity) → t.type = ity →
        convertValue (pre ++ t :: post) fl name v = t.method v)
    ∧ (∀ (rules : List ConvertRule),
        (∀ r ∈ rules, isinst v r.type = false) →
        (∀ ity, getUpdateFieldType fl name = some ity → ∀ r ∈ rules, r.type ≠ ity) →
        convertValue rules fl name v = .ok v) := by
  refine ⟨?_, ?_, ?_⟩
  · intro pre post t hpre ht
    unfold convertValue
    rw [find?_append_first (fun t => isinst v t.type) pre t post hpre ht]
  · intro pre post t ity hall hity hpre htt
    unfold convertValue
    rw [List.find?_eq_none.mpr (fun r hr => by simp [hall r hr])]
    dsimp only
    rw [hity]
    dsimp only
    rw [find?_append_first (fun r => r.type == ity) pre t post
      (fun r hr => beq_eq_false_iff_ne.mpr (hpre r hr)) (beq_iff_eq.mpr htt)]
  · intro rules hall hd
    unfold convertValue
    rw [List.find?_eq_none.mpr (fun r hr => by simp [hall r hr])]
    dsimp only
    cases hty : getUpdateFieldType fl name with
    | none => rfl
    | some ity =>
        dsimp only
        rw [List.find?_eq_none.mpr (fun r hr => by simp [hd ity hty r hr])]

/-- Witness for C3: the first default rule (runtime type `bool`) applies
to a boolean value. -/
theorem C3_convert_value_order_witness :
    convertValue defaultConvertTypes [] "flag" (.bool true) = .ok (.str "y") :=
  (C3_convert_value_order [] "flag" (.bool true)).1 []
    [⟨PyType.bytes, encodeMethod⟩] ⟨PyType.bool, boolMethod⟩
    (fun r hr => absurd hr (List.not_mem_nil r)) rfl

/-- Counterexample to claim C4 as stated: the default bytes rule does NOT
convert a raw `bytes` value to its encoded form without raising.  Its
method is `lambda v: v.encode()`, and `bytes` has no `encode` attribute in
Python 3, so `__convert_value` raises `AttributeError` on every actual
bytes value. -/
theorem C4_bytes_value_raises :
    convertValue defaultConvertTypes [] "data" (PyVal.bytes "abc")
      = .error encodeAttrError
    ∧ (Except.error encodeAttrError : Except String PyVal)
      ≠ .ok (PyVal.bytes "abc") :=
  ⟨rfl, fun h => Except.noConfusion h⟩

/-- Claim C4 as amended.  The default rules convert every boolean value to
the single-character token (`y` for true, `n` for false) without raising;
the default bytes rule raises `AttributeError` on every actual bytes
value, and instead encodes a string value to bytes when the destination
column is bytes-typed (a LOB column). -/
theorem C4_default_rules (fl : List SField) (name : String) :
    (∀ b : Bool, convertValue defaultConvertTypes fl name (.bool b)
        = .ok (.str (if b then "y" else "n")))
    ∧ (∀ s : String, convertValue defaultConvertTypes fl name (.bytes s)
        = .error encodeAttrError)
    ∧ (∀ s : String, getUpdateFieldType fl name = some PyType.bytes →
        convertValue defaultConvertTypes fl name (.str s) = .ok (.bytes s)) := by
  refine ⟨fun b => by cases b <;> rfl, fun s => rfl, fun s hty => ?_⟩
  unfold convertValue
  rw [hty]
  rfl

/-- Witness for C4 as amended: a string headed for a BLOB column is
encoded to bytes. -/
theorem C4_default_rules_witness :
    convertValue defaultConvertTypes [⟨"data", "BLOB", Option.none⟩] "data" (.str "hi")
      = .ok (.bytes "hi") :=
  (C4_default_rules [⟨"data", "BLOB", Option.none⟩] "data").2.2 "hi" rfl

/-- Claim C5 (confirmed).  When a read-side converter raises during
`fs_as_dict`, the resulting mapping holds, for that field, a string
beginning with `Error:` that embeds the exception text, the field name and
the coarse declared type, and the exception does not propagate (the
embedded `fsAsDict` is a total function into `Dict` because the source
catches every exception inside the loop). -/
theorem C5_converter_error_isolated (getter : String → Except String PyVal)
    (fields : List SField) (c : SField) (v : PyVal)
    (conv : PyVal → Except String PyVal) (e : String)
    (hnd : (fields.map (fun f => f.name)).Nodup) (hc : c ∈ fields)
    (hget : getter c.name = .ok v) (hv : v ≠ PyVal.none)
    (hcv : c.converter = some conv) (herr : conv v = .error e) :
    dget (fsAsDict getter fields) c.name
      = some (.str (errString e c.name c.c_type))
    ∧ (∃ r, errString e c.name c.c_type = "Error:" ++ r)
    ∧ (∃ p q, errString e c.name c.c_type = p ++ (e ++ q))
    ∧ (∃ p q, errString e c.name c.c_type = p ++ (c.name ++ q))
    ∧ (∃ p, errString e c.name c.c_type = p ++ c.c_type) := by
  have hsplit : ("Error:\"" : String) = "Error:" ++ "\"" := by decide
  have hfe : fieldEntry getter c = some (.str (errString e c.name c.c_type)) := by
    unfold fieldEntry
    rw [hget]
    dsimp only
    rw [if_neg hv, hcv]
    dsimp only
    rw [herr]
  refine ⟨dget_fsAsDictAux_mem getter fields [] c _ hnd hc hfe,
    ⟨"\"" ++ (e ++ ("\". Failed to convert [" ++ (c.name ++ ("] type:" ++ c.c_type)))), ?_⟩,
    ⟨"Error:\"", "\". Failed to convert [" ++ (c.name ++ ("] type:" ++ c.c_type)), rfl⟩,
    ⟨"Error:\"" ++ e ++ "\". Failed to convert [", "] type:" ++ c.c_type, ?_⟩,
    ⟨"Error:\"" ++ e ++ "\". Failed to convert [" ++ c.name ++ "] type:", ?_⟩⟩
  · rw [errString, hsplit, String.append_assoc]
  · rw [errString]
    simp [String.append_assoc]
  · rw [errString]
    simp [String.append_assoc]

/-- Witness for C5: a converter that raises `boom` on a DATETIME field. -/
theorem C5_converter_error_isolated_witness :
    dget (fsAsDict (fun _ => Except.ok (PyVal.int 5))
        [⟨"when", "DATETIME", some (fun _ => Except.error "boom")⟩]) "when"
      = some (.str (errString "boom" "when" "DATETIME")) :=
  (C5_converter_error_isolated (fun _ => Except.ok (PyVal.int 5))
      [⟨"when", "DATETIME", some (fun _ => Except.error "boom")⟩]
      ⟨"when", "DATETIME", some (fun _ => Except.error "boom")⟩
      (PyVal.int 5) (fun _ => Except.error "boom") "boom"
      (by decide) (List.mem_cons_self _ _) rfl (by decide) rfl rfl).1

/-- Counterexample to claim C6 as stated: when the default
`__fs_can_delete__` gate denies (because `__fs_can_update__` is false), the
DELETE branch of `fs_get_delete_put_post` does NOT produce an HTTP 403
outcome.  The `abort(403)` raised by the hook is caught by the blanket
`except Exception` at source line 678 and rendered with
`__fs_http_error_code`, which is 400. -/
theorem C6_delete_denied_status_400 :
    fsGetDeletePutPost hooksDenyUpdate cfgDemo instDemo [] reqDelete
      = (DispatchResult.errorBody forbidden403Text fsHttpErrorCode, [])
    ∧ fsHttpErrorCode = 400
    ∧ fsHttpErrorCode ≠ 403 :=
  ⟨rfl, rfl, by decide⟩

/-- Claim C6 as amended.  When the can-update gate is false, so that the
default `__fs_can_delete__` hook raises its 403 forbidden exception, a
DELETE through `fs_get_delete_put_post` invokes neither the persistence
collaborator delete nor commit, and answers with the forbidden exception
text under the configured default error code 400 — not with status 403. -/
theorem C6_delete_denied (h : Hooks) (cfg : FsConfig) (inst : Inst) (prev : Dict)
    (req : Request) (hm : req.method = Method.DELETE)
    (hcd : h.canDelete = defaultCanDelete h.canUpdate)
    (hcu : h.canUpdate = false) :
    fsGetDeletePutPost h cfg inst prev req
      = (DispatchResult.errorBody forbidden403Text fsHttpErrorCode, [])
    ∧ Ev.sessionDelete ∉ (fsGetDeletePutPost h cfg inst prev req).2
    ∧ Ev.sessionCommit ∉ (fsGetDeletePutPost h cfg inst prev req).2 := by
  have key : fsGetDeletePutPost h cfg inst prev req
      = (DispatchResult.errorBody forbidden403Text fsHttpErrorCode, []) := by
    unfold fsGetDeletePutPost
    rw [hm]
    dsimp only
    rw [hcd, hcu]
    rfl
  refine ⟨key, ?_, ?_⟩ <;> rw [key] <;> simp

/-- Witness for C6 as amended, at the concrete fixtures. -/
theorem C6_delete_denied_witness :
    fsGetDeletePutPost hooksDenyUpdate cfgDemo instDemo [] reqDelete
      = (DispatchResult.errorBody forbidden403Text fsHttpErrorCode, [])
    ∧ Ev.sessionDelete ∉ (fsGetDeletePutPost hooksDenyUpdate cfgDemo instDemo [] reqDelete).2 :=
  ⟨(C6_delete_denied hooksDenyUpdate cfgDemo instDemo [] reqDelete rfl rfl rfl).1,
    (C6_delete_denied hooksDenyUpdate cfgDemo instDemo [] reqDelete rfl rfl rfl).2.1⟩

/-- Counterexample to claim C7 as stated: the property filter of
`fs_json_list` is NOT an every-key filter.  With filters `a=1, b=3` and a
single accessible item `a=1, b=2`, the source keeps the item (its inner
loop breaks on the first matching pair), while a filter requiring every
listed pair to match would return the empty list. -/
theorem C7_filter_not_every :
    fsJsonList Option.none Option.none
        [⟨true, [("a", .int 1), ("b", .int 2)]⟩]
        [("a", .int 1), ("b", .int 3)]
      = [[("a", .int 1), ("b", .int 2)]]
    ∧ specEveryFilter [("a", .int 1), ("b", .int 3)]
        (sortStage Option.none Option.none [[("a", .int 1), ("b", .int 2)]])
      = []
    ∧ ([[("a", PyVal.int 1), ("b", PyVal.int 2)]] : List Dict) ≠ [] :=
  ⟨rfl, rfl, by decide⟩

/-- Claim C7 as amended.  For every query result and non-empty filter
mapping, `fs_json_list` returns exactly the access-filtered serialized
items for which AT LEAST ONE listed filter key serializes to the listed
value (each such item once), preserving the input order except for the
configured ascending/descending sort stage. -/
theorem C7_filter_any (orderBy orderByDesc : Option String) (qr : List QItem)
    (filters : List (String × PyVal)) (hne : filters ≠ []) :
    fsJsonList orderBy orderByDesc qr filters
      = (sortStage orderBy orderByDesc
            ((qr.filter (fun i => i.canAccess)).map (fun i => i.jdict))).filter
          (fun d => filters.any (fun kv => pyEq (dget0 d kv.1) kv.2)) := by
  simp only [fsJsonList]
  rw [if_neg (fun h => hne (List.isEmpty_iff.mp h)), propFilterLoop_eq_filter]
  congr 1
  funext d
  exact innerMatch_eq_any d filters

/-- Witness for C7 as amended: one accessible and one inaccessible item,
one filter pair. -/
theorem C7_filter_any_witness :
    fsJsonList Option.none Option.none
        [⟨true, [("a", PyVal.int 1)]⟩, ⟨false, [("a", PyVal.int 2)]⟩]
        [("a", PyVal.int 1)]
      = [[("a", PyVal.int 1)]] := by
  rw [C7_filter_any Option.none Option.none
    [⟨true, [("a", PyVal.int 1)]⟩, ⟨false, [("a", PyVal.int 2)]⟩]
    [("a", PyVal.int 1)] (fun h => List.noConfusion h)]
  rfl

/-- Claim C8 (confirmed).  A non-excluded field whose read value is `None`
serializes to the empty string (and the empty string is not the `None`
value, i.e. never a JSON null). -/
theorem C8_none_serializes_empty (getter : String → Except String PyVal)
    (fields : List SField) (c : SField)
    (hnd : (fields.map (fun f => f.name)).Nodup) (hc : c ∈ fields)
    (hget : getter c.name = .ok PyVal.none) :
    dget (fsAsDict getter fields) c.name = some (PyVal.str "")
    ∧ PyVal.str "" ≠ PyVal.none := by
  have hfe : fieldEntry getter c = some (PyVal.str "") := by
    unfold fieldEntry
    rw [hget]
    simp
  exact ⟨dget_fsAsDictAux_mem getter fields [] c _ hnd hc hfe, by decide⟩

/-- Witness for C8: a `None`-valued VARCHAR field named `note`. -/
theorem C8_none_serializes_empty_witness :
    dget (fsAsDict (fun _ => Except.ok PyVal.none)
        [⟨"note", "VARCHAR", Option.none⟩]) "note" = some (PyVal.str "") :=
  (C8_none_serializes_empty (fun _ => Except.ok PyVal.none)
      [⟨"note", "VARCHAR", Option.none⟩] ⟨"note", "VARCHAR", Option.none⟩
      (by decide) (List.mem_cons_self _ _) rfl).1

/-- Claim C9 (confirmed).  For an updatable field present in the incoming
mapping, `fs_update_from_dict` records the pre-update attribute value in
the previous-value record and writes the converted incoming value onto the
instance (stated for the default identity before-update hook and a
duplicate-free update-field list). -/
theorem C9_prev_then_write (cfg : FsConfig) (inst : Inst) (prev data : Dict)
    (f : String) (w : PyVal) (inst2 : Inst) (prev2 : Dict)
    (hid : cfg.beforeUpdate = fun d => d)
    (hnd : cfg.updateFields.Nodup)
    (hf : f ∈ cfg.updateFields)
    (hm : dmem data f = true)
    (hcv : convertValue cfg.convertTypes cfg.fieldList f (dget0 data f) = .ok w)
    (hrun : fsUpdateFromDict cfg inst prev data = .ok (inst2, prev2)) :
    dget prev2 f = some (inst f) ∧ inst2 f = w := by
  rw [fsUpdateFromDict, hid] at hrun
  exact ⟨updLoop_prev cfg cfg.updateFields f inst prev data inst2 prev2 hnd hf hrun,
    updLoop_write cfg cfg.updateFields f inst prev data inst2 prev2 w hnd hf hm hcv hrun⟩

/-- Witness for C9: applying `name=Bob` to an instance whose `name` is
Alice leaves the previous-value record reporting Alice while the instance
reads Bob (the VARCHAR conversion is a no-op for strings). -/
theorem C9_prev_then_write_witness :
    dget [("name", PyVal.str "Alice")] "name" = some (instDemo "name")
    ∧ setI instDemo "name" (PyVal.str "Bob") "name" = PyVal.str "Bob" :=
  C9_prev_then_write cfgDemo instDemo [] [("name", PyVal.str "Bob")] "name"
    (PyVal.str "Bob") (setI instDemo "name" (PyVal.str "Bob"))
    [("name", PyVal.str "Alice")] rfl (by decide) (by decide) rfl rfl rfl

/-- Claim C10 (confirmed).  After a successful `fs_update_from_dict` call
(default identity before-update hook, duplicate-free update-field list),
the previous-value record holds the pre-update value of EVERY updatable
field, including those absent from the incoming mapping, and the attribute
values of fields absent from the incoming mapping are unchanged. -/
theorem C10_prev_record_and_frame (cfg : FsConfig) (inst : Inst) (prev data : Dict)
    (inst2 : Inst) (prev2 : Dict)
    (hid : cfg.beforeUpdate = fun d => d)
    (hnd : cfg.updateFields.Nodup)
    (hrun : fsUpdateFromDict cfg inst prev data = .ok (inst2, prev2)) :
    (∀ f ∈ cfg.updateFields, dget prev2 f = some (inst f))
    ∧ (∀ g, dmem data g = false → inst2 g = inst g) := by
  rw [fsUpdateFromDict, hid] at hrun
  exact ⟨fun f hf => updLoop_prev cfg cfg.updateFields f inst prev data inst2 prev2 hnd hf hrun,
    fun g hg => updLoop_frame cfg cfg.updateFields g inst prev data inst2 prev2 hg hrun⟩

/-- Witness for C10: updating only `name` records the pre-update `age` in
the previous-value record and leaves the `age` attribute unchanged. -/
theorem C10_prev_record_and_frame_witness :
    dget [("name", PyVal.str "Alice"), ("age", PyVal.int 30)] "age" = some (instTwo "age")
    ∧ setI instTwo "name" (PyVal.str "Bob") "age" = instTwo "age" :=
  ⟨(C10_prev_record_and_frame cfgTwo instTwo [] [("name", PyVal.str "Bob")]
      (setI instTwo "name" (PyVal.str "Bob"))
      [("name", PyVal.str "Alice"), ("age", PyVal.int 30)] rfl (by decide) rfl).1
      "age" (by decide),
    (C10_prev_record_and_frame cfgTwo instTwo [] [("name", PyVal.str "Bob")]
      (setI instTwo "name" (PyVal.str "Bob"))
      [("name", PyVal.str "Alice"), ("age", PyVal.int 30)] rfl (by decide) rfl).2
      "age" rfl⟩

end FlaskSerialize
